import Mathlib

/-
Verification of the daily-tech-news pipeline (src/main.py).

Shallow embedding conventions:
* Timestamps are modelled as `Int`.  The source compares `datetime` values
  directly for the recency cutoff (line 63) and sorts the aggregated list by
  the `published` field, which holds `datetime.isoformat()` strings
  (lines 68, 83).  `isoformat` is strictly monotone and zero-padded, so
  lexicographic order on those strings coincides with chronological order;
  a single linearly ordered time type is therefore a faithful model of both
  comparisons.
* Python `str.lower()` is modelled by mapping `Char.toLower` over the
  characters (the configured keywords are ASCII), and slicing `s[:n]` by
  taking the first `n` characters.
* Python's substring test `keyword in text` is modelled by `List.IsInfix`
  on the character lists.
* `os.getenv` results are modelled as `Option String` fields of `Env`.
* The generative call `self.model.generate_content(prompt)` is an opaque
  external collaborator; its outcome is passed in as an `Except` value.
-/

/-- Python `str.lower()` (ASCII case folding, as used by the keyword sets). -/
def lowerStr (s : String) : String := String.mk (s.data.map Char.toLower)

/-- Python slicing `s[:n]` by code points. -/
def takeStr (s : String) (n : Nat) : String := String.mk (s.data.take n)

/-- The normalized item record built at src/main.py lines 64-70. -/
structure NewsItem where
  title : String
  link : String
  summary : String
  published : Int
  source : String
deriving DecidableEq

/-- A parsed feed entry as seen by `fetch_recent_news` (lines 53-67):
`title`/`link` are required, `summary` may be absent, and the two parsed
timestamp fields may each be absent (`published_parsed`/`updated_parsed`). -/
structure FeedEntry where
  title : String
  link : String
  summary : Option String
  publishedParsed : Option Int
  updatedParsed : Option Int
deriving DecidableEq

/-- Line 44: `cutoff_time = datetime.now() - timedelta(hours=hours_back)`. -/
def cutoffTime (now hoursBack : Int) : Int := now - hoursBack

/-- Lines 56-61: the publish-timestamp fallback chain — the feed's
`published_parsed` field if present, else `updated_parsed`, else the
current time. -/
def resolveTimestamp (e : FeedEntry) (now : Int) : Int :=
  match e.publishedParsed with
  | some t => t
  | none =>
    match e.updatedParsed with
    | some t => t
    | none => now

/-- Lines 56-72: processing of one feed entry — resolve its timestamp,
keep it iff the timestamp is at or after the cutoff (line 63,
`pub_date >= cutoff_time`), and normalize it into a `NewsItem`
(summary defaults to the title and is sliced to 300 characters, line 67). -/
def processEntry (sourceName : String) (cutoff now : Int) (e : FeedEntry) : Option NewsItem :=
  let pubDate := resolveTimestamp e now
  if cutoff ≤ pubDate then
    some { title := e.title, link := e.link,
           summary := takeStr (e.summary.getD e.title) 300,
           published := pubDate, source := sourceName }
  else none

/-- One step of the stable descending sort at line 83
(`all_news.sort(key=lambda x: x['published'], reverse=True)`): insert an
element after every already-placed element whose key is ≥ its own, so that
equal keys retain input order. -/
def insertDesc (x : NewsItem) : List NewsItem → List NewsItem
  | [] => [x]
  | y :: ys => if y.published ≤ x.published then x :: y :: ys else y :: insertDesc x ys

/-- Stable sort by `published` descending (line 83; Python `list.sort` is
stable, also with `reverse=True`). -/
def sortByPublishedDesc : List NewsItem → List NewsItem
  | [] => []
  | x :: xs => insertDesc x (sortByPublishedDesc xs)

/-- Lines 82-84: the aggregation step of `fetch_recent_news` — sort the
flat list by published timestamp descending, then keep the first 50. -/
def aggregateNews (allNews : List NewsItem) : List NewsItem :=
  (sortByPublishedDesc allNews).take 50

/-- The whole of `fetch_recent_news` on already-parsed feeds: each source
contributes its entries filtered through `processEntry`, and the flat list
goes through the aggregation step.  `now` is the time at which the cutoff
was computed (line 44) and `entryNow` the later time observed when an
entry lacks both timestamp fields (line 61). -/
def fetch_recent_news (feeds : List (String × List FeedEntry)) (now entryNow hoursBack : Int) :
    List NewsItem :=
  aggregateNews ((feeds.map
    (fun p => p.2.filterMap (processEntry p.1 (cutoffTime now hoursBack) entryNow))).flatten)

/-- The eight category labels of `categorize_news`, in declaration order
(lines 91-100). -/
def all_categories : List String :=
  ["🤖 人工智慧與機器學習", "🔒 資訊安全", "☁️ 雲端與基礎設施", "💻 軟體開發",
   "🚀 新創與投資", "📱 消費性科技", "🔬 科學研究", "📰 其他科技新聞"]

/-- The keyword configuration of `categorize_news` (lines 103-133), in
declaration order; the default bucket has no keywords. -/
def keywords_map : List (String × List String) :=
  [("🤖 人工智慧與機器學習",
    ["ai", "artificial intelligence", "machine learning", "neural", "gpt",
     "claude", "openai", "deepmind", "llm", "chatbot", "transformer",
     "deep learning", "computer vision", "natural language"]),
   ("🔒 資訊安全",
    ["security", "breach", "hack", "vulnerability", "cyber", "malware",
     "encryption", "privacy", "ransomware", "phishing", "zero-day", "exploit"]),
   ("☁️ 雲端與基礎設施",
    ["cloud", "aws", "azure", "gcp", "docker", "kubernetes", "serverless",
     "microservices", "devops", "infrastructure"]),
   ("💻 軟體開發",
    ["programming", "developer", "code", "github", "open source", "framework",
     "api", "software", "javascript", "python", "react", "node"]),
   ("🚀 新創與投資",
    ["startup", "funding", "investment", "ipo", "acquisition", "venture",
     "business", "unicorn", "valuation"]),
   ("📱 消費性科技",
    ["iphone", "android", "smartphone", "tablet", "wearable", "consumer",
     "apple", "samsung", "google pixel"]),
   ("🔬 科學研究",
    ["research", "study", "paper", "university", "breakthrough", "discovery",
     "journal", "peer review"])]

/-- The default bucket label (line 153). -/
def defaultCategory : String := "📰 其他科技新聞"

/-- Line 136: `text = f"{item['title']} {item['summary']}".lower()`. -/
def searchText (item : NewsItem) : String :=
  lowerStr (item.title ++ " " ++ item.summary)

/-- Line 142: `score = sum(1 for keyword in keywords if keyword in text)` —
the number of keywords of the category occurring as substrings of the
search text. -/
def score (text : String) (keywords : List String) : Nat :=
  keywords.countP (fun k => decide (k.data <:+: text.data))

/-- All seven (category, score) pairs of an item, in declaration order. -/
def allScores (item : NewsItem) : List (String × Nat) :=
  keywords_map.map (fun p => (p.1, score (searchText item) p.2))

/-- Lines 140-144: the `category_scores` dict — only categories with a
positive score are recorded, in declaration order. -/
def category_scores (item : NewsItem) : List (String × Nat) :=
  keywords_map.filterMap (fun p =>
    let s := score (searchText item) p.2
    if 0 < s then some (p.1, s) else none)

/-- One comparison step of Python's `max(..., key=...)` (line 148): the
candidate replaces the current best only when its key is strictly
greater, so the first maximal element wins. -/
def maxStep (best q : String × Nat) : String × Nat :=
  if best.2 < q.2 then q else best

/-- Line 148: `max(category_scores, key=category_scores.get)` over the
insertion-ordered dict; `none` when the dict is empty. -/
def maxByScoreFirst : List (String × Nat) → Option (String × Nat)
  | [] => none
  | p :: ps => some (ps.foldl maxStep p)

/-- Lines 146-153: the category an item is appended to — the best-scoring
category if any score is positive, else the default bucket. -/
def assignCategory (item : NewsItem) : String :=
  match maxByScoreFirst (category_scores item) with
  | some p => p.1
  | none => defaultCategory

/-- Lines 135-162: `categorize_news`.  The loop appends each item, in input
order, to the list of its assigned category, so each category's list is
the input filtered to the items assigned to it; afterwards empty
categories are dropped and each surviving list is truncated to its first
8 items (lines 155-162). -/
def categorize_news (news_items : List NewsItem) : List (String × List NewsItem) :=
  (all_categories.map
    (fun c => (c, news_items.filter (fun it => decide (assignCategory it = c))))).filterMap
    (fun p => if p.2 = [] then none else some (p.1, p.2.take 8))

/-- Lines 233-236: the four lines rendered for one item of the fallback
report (1-based index `i`). -/
def renderItem (i : Nat) (news : NewsItem) : String :=
  ("### " ++ toString i ++ ". " ++ news.title ++ "\n") ++
  ("- **來源**: " ++ news.source ++ "\n") ++
  ("- **連結**: [閱讀原文](" ++ news.link ++ ")\n") ++
  ("- **摘要**: " ++ takeStr news.summary 150 ++ "...\n\n")

/-- Line 232: `enumerate(news_list[:5], 1)` — render a list of items with
indices starting at `i`. -/
def renderItems : Nat → List NewsItem → String
  | _, [] => ""
  | i, n :: ns => renderItem i n ++ renderItems (i + 1) ns

/-- Lines 231-237: one category section of the fallback report — heading,
at most the first 5 items, and a separator. -/
def renderCategory (category : String) (newsList : List NewsItem) : String :=
  ("## " ++ category ++ "\n\n") ++ renderItems 1 (newsList.take 5) ++ "---\n\n"

/-- Lines 229-237: the loop over `categorized_news.items()`; empty lists
contribute nothing (`if news_list:`). -/
def renderCategories : List (String × List NewsItem) → String
  | [] => ""
  | (category, newsList) :: rest =>
    (if newsList = [] then "" else renderCategory category newsList) ++ renderCategories rest

/-- Lines 222-227: the header of the fallback report (title line and
generation-time line; the two timestamps are passed in). -/
def reportHeader (dateStr timeStr : String) : String :=
  "# 📰 每日科技新聞摘要_" ++ dateStr ++ "\n*生成時間：" ++ timeStr ++ "*\n\n---\n\n"

/-- Lines 218-239: `generate_fallback_report`. -/
def generate_fallback_report (dateStr timeStr : String)
    (categorized_news : List (String × List NewsItem)) : String :=
  reportHeader dateStr timeStr ++ renderCategories categorized_news

/-- Lines 210-216: `generate_report` — return the generative service's
text on success, fall back to the deterministic report when the call
raises. -/
def generate_report (genResult : Except String String) (dateStr timeStr : String)
    (categorized_news : List (String × List NewsItem)) : String :=
  match genResult with
  | Except.ok text => text
  | Except.error _ => generate_fallback_report dateStr timeStr categorized_news

/-- The environment variables the program reads (`os.getenv`), each
possibly absent. -/
structure Env where
  geminiApiKey : Option String
  hackmdToken : Option String
  fromEmail : Option String
  toEmail : Option String
  smtpServer : Option String
  smtpPort : Option String
  emailUsername : Option String
  emailPassword : Option String
deriving DecidableEq

/-- Lines 14-26: `TechNewsBot.__init__` — the only startup credential
check: it raises iff `GEMINI_API_KEY` is unset; `HACKMD_TOKEN` and all
mail settings are merely stored or not read at all. -/
def techNewsBotInit (env : Env) : Except String Env :=
  match env.geminiApiKey with
  | none => Except.error "請設置 GEMINI_API_KEY 環境變數"
  | some _ => Except.ok env

/-- Lines 241-276: `create_hackmd_note` — skipped (returns `None`) when the
token is absent; otherwise the outcome of the HTTP call (`some` url on
201, `none` otherwise) is passed in as `response`. -/
def create_hackmd_note (env : Env) (response : Option String) : Option String :=
  match env.hackmdToken with
  | none => none
  | some _ => response

/-- Lines 278-454: `send_email_with_link`.  The whole body is a
`try/except` returning `False` on any exception: a missing `TO_EMAIL`
raises at the `','  in to_emails` test (line 288), a missing
`SMTP_SERVER` at the connection (line 444), missing login credentials at
`server.login` (line 446).  When these are present the delivery attempt
itself is an opaque network call, abstracted as success. -/
def send_email_with_link (env : Env) : Bool :=
  if env.toEmail.isNone then false
  else if env.smtpServer.isNone then false
  else if env.emailUsername.isNone then false
  else if env.emailPassword.isNone then false
  else true

theorem mem_insertDesc {x a : NewsItem} {l : List NewsItem} :
    x ∈ insertDesc a l ↔ x = a ∨ x ∈ l := by
  induction l with
  | nil => simp [insertDesc]
  | cons y ys ih =>
    by_cases h : y.published ≤ a.published
    · simp [insertDesc, h]
    · simp only [insertDesc, if_neg h, List.mem_cons, ih]
      tauto

theorem pairwise_insertDesc {a : NewsItem} {l : List NewsItem}
    (h : l.Pairwise (fun u v => v.published ≤ u.published)) :
    (insertDesc a l).Pairwise (fun u v => v.published ≤ u.published) := by
  induction l with
  | nil => simp [insertDesc]
  | cons y ys ih =>
    rcases List.pairwise_cons.mp h with ⟨hy, hys⟩
    by_cases hle : y.published ≤ a.published
    · rw [insertDesc, if_pos hle]
      refine List.pairwise_cons.mpr ⟨?_, h⟩
      intro z hz
      rcases List.mem_cons.mp hz with rfl | hz
      · exact hle
      · exact le_trans (hy z hz) hle
    · rw [insertDesc, if_neg hle]
      refine List.pairwise_cons.mpr ⟨?_, ih hys⟩
      intro z hz
      rcases mem_insertDesc.mp hz with rfl | hz
      · exact le_of_lt (lt_of_not_le hle)
      · exact hy z hz

theorem pairwise_sortByPublishedDesc (l : List NewsItem) :
    (sortByPublishedDesc l).Pairwise (fun u v => v.published ≤ u.published) := by
  induction l with
  | nil => simp [sortByPublishedDesc]
  | cons x xs ih => exact pairwise_insertDesc ih

theorem filter_insertDesc (t : Int) (a : NewsItem) (l : List NewsItem) :
    (insertDesc a l).filter (fun it => decide (it.published = t)) =
      (a :: l).filter (fun it => decide (it.published = t)) := by
  induction l with
  | nil => rfl
  | cons y ys ih =>
    by_cases hle : y.published ≤ a.published
    · rw [insertDesc, if_pos hle]
    · rw [insertDesc, if_neg hle]
      by_cases hpa : a.published = t
      · have hpy : ¬ y.published = t := fun hy => hle (le_of_eq (hy.trans hpa.symm))
        simp [List.filter_cons, ih, hpa, hpy]
      · by_cases hpy : y.published = t <;> simp [List.filter_cons, ih, hpa, hpy]

theorem filter_sortByPublishedDesc (t : Int) (l : List NewsItem) :
    (sortByPublishedDesc l).filter (fun it => decide (it.published = t)) =
      l.filter (fun it => decide (it.published = t)) := by
  induction l with
  | nil => rfl
  | cons x xs ih =>
    rw [sortByPublishedDesc, filter_insertDesc]
    simp only [List.filter_cons, ih]

/-- C3: the aggregation step returns a list whose published timestamps are
non-increasing, whose length never exceeds 50, and in which items of any
fixed timestamp form a prefix of the equally-timestamped items of the
input, i.e. the stable sort keeps their relative input order. -/
theorem aggregator_sorted_capped_stable (items : List NewsItem) :
    (aggregateNews items).Pairwise (fun a b => b.published ≤ a.published) ∧
    (aggregateNews items).length ≤ 50 ∧
    ∀ t : Int,
      (aggregateNews items).filter (fun it => decide (it.published = t)) <+:
        items.filter (fun it => decide (it.published = t)) := by
  refine ⟨?_, ?_, ?_⟩
  · exact List.Pairwise.sublist (List.take_sublist 50 _) (pairwise_sortByPublishedDesc items)
  · exact List.length_take_le 50 _
  · intro t
    have h1 : aggregateNews items <+: sortByPublishedDesc items :=
      ⟨(sortByPublishedDesc items).drop 50, List.take_append_drop _ _⟩
    have h2 := List.IsPrefix.filter (fun it => decide (it.published = t)) h1
    rw [filter_sortByPublishedDesc] at h2
    exact h2

/-- C5: a feed entry is turned into a `NewsItem` if and only if its
resolved publish timestamp is at or after the cutoff — strictly earlier
timestamps are excluded and the boundary timestamp is included. -/
theorem fetcher_cutoff_boundary (s : String) (cutoff now : Int) (e : FeedEntry) :
    (processEntry s cutoff now e).isSome = true ↔ cutoff ≤ resolveTimestamp e now := by
  unfold processEntry
  by_cases h : cutoff ≤ resolveTimestamp e now <;> simp [h]

/-- C6: the publish timestamp of an entry is determined by the ordered
fallback chain — the native published field if available, else the
updated field if available, else the current time. -/
theorem timestamp_fallback_chain (e : FeedEntry) (now : Int) :
    (∀ t, e.publishedParsed = some t → resolveTimestamp e now = t) ∧
    (e.publishedParsed = none →
      ∀ u, e.updatedParsed = some u → resolveTimestamp e now = u) ∧
    (e.publishedParsed = none → e.updatedParsed = none →
      resolveTimestamp e now = now) := by
  refine ⟨?_, ?_, ?_⟩ <;> intros <;> simp_all [resolveTimestamp]

theorem timestamp_fallback_chain_witness :
    resolveTimestamp ⟨"t", "l", none, some 5, some 3⟩ 9 = 5 ∧
    resolveTimestamp ⟨"t", "l", none, none, some 3⟩ 9 = 3 ∧
    resolveTimestamp ⟨"t", "l", none, none, none⟩ 9 = 9 :=
  ⟨(timestamp_fallback_chain ⟨"t", "l", none, some 5, some 3⟩ 9).1 5 rfl,
   (timestamp_fallback_chain ⟨"t", "l", none, none, some 3⟩ 9).2.1 rfl 3 rfl,
   (timestamp_fallback_chain ⟨"t", "l", none, none, none⟩ 9).2.2 rfl rfl⟩

/-- C10: an entry lacking both timestamp fields gets the current time,
which is at or after the cutoff of the same run whenever the window is
non-negative and time moved forward since the cutoff was computed, so the
entry is always included. -/
theorem missing_timestamp_always_included (s : String) (e : FeedEntry)
    (hoursBack now1 now2 : Int) (hhb : 0 ≤ hoursBack) (hmono : now1 ≤ now2)
    (hp : e.publishedParsed = none) (hu : e.updatedParsed = none) :
    (processEntry s (cutoffTime now1 hoursBack) now2 e).isSome = true := by
  have hres : resolveTimestamp e now2 = now2 := by simp [resolveTimestamp, hp, hu]
  rw [fetcher_cutoff_boundary, hres, cutoffTime]
  omega

theorem missing_timestamp_always_included_witness :
    (processEntry "HN" (cutoffTime 100 24) 101 ⟨"t", "l", none, none, none⟩).isSome = true :=
  missing_timestamp_always_included "HN" ⟨"t", "l", none, none, none⟩ 24 100 101
    (by decide) (by decide) rfl rfl

theorem foldl_maxStep_keep (ps : List (String × Nat)) (p : String × Nat)
    (h : ∀ q ∈ ps, q.2 ≤ p.2) : ps.foldl maxStep p = p := by
  induction ps with
  | nil => rfl
  | cons q qs ih =>
    have hq : q.2 ≤ p.2 := h q (List.mem_cons_self q qs)
    have hstep : maxStep p q = p := by
      unfold maxStep
      rw [if_neg (not_lt.mpr hq)]
    rw [List.foldl_cons, hstep]
    exact ih (fun r hr => h r (List.mem_cons_of_mem q hr))

theorem foldl_maxStep_reach (a : List (String × Nat)) (p : String × Nat)
    (c : String) (m : Nat) (b : List (String × Nat))
    (hp : p.2 < m) (ha : ∀ q ∈ a, q.2 < m) :
    (a ++ (c, m) :: b).foldl maxStep p = b.foldl maxStep (c, m) := by
  induction a generalizing p with
  | nil =>
    rw [List.nil_append, List.foldl_cons]
    have hstep : maxStep p (c, m) = (c, m) := by
      unfold maxStep
      rw [if_pos hp]
    rw [hstep]
  | cons q qs ih =>
    rw [List.cons_append, List.foldl_cons]
    have hq : q.2 < m := ha q (List.mem_cons_self q qs)
    have hstep : (maxStep p q).2 < m := by
      unfold maxStep
      by_cases hc : p.2 < q.2
      · rw [if_pos hc]; exact hq
      · rw [if_neg hc]; exact hp
    exact ih (maxStep p q) hstep (fun r hr => ha r (List.mem_cons_of_mem q hr))

theorem maxByScoreFirst_split (a b : List (String × Nat)) (c : String) (m : Nat)
    (ha : ∀ q ∈ a, q.2 < m) (hb : ∀ q ∈ b, q.2 ≤ m) :
    maxByScoreFirst (a ++ (c, m) :: b) = some (c, m) := by
  cases a with
  | nil =>
    show some (b.foldl maxStep (c, m)) = some (c, m)
    rw [foldl_maxStep_keep b (c, m) hb]
  | cons p ps =>
    have hp : p.2 < m := ha p (List.mem_cons_self p ps)
    have hps : ∀ q ∈ ps, q.2 < m := fun q hq => ha q (List.mem_cons_of_mem p hq)
    show some ((ps ++ (c, m) :: b).foldl maxStep p) = some (c, m)
    rw [foldl_maxStep_reach ps p c m b hp hps, foldl_maxStep_keep b (c, m) hb]

theorem foldl_maxStep_mem (ps : List (String × Nat)) (p : String × Nat) :
    ps.foldl maxStep p ∈ p :: ps := by
  induction ps generalizing p with
  | nil => exact List.mem_cons_self p []
  | cons q qs ih =>
    rw [List.foldl_cons]
    have hmq : maxStep p q = p ∨ maxStep p q = q := by
      unfold maxStep
      by_cases hc : p.2 < q.2
      · rw [if_pos hc]; exact Or.inr rfl
      · rw [if_neg hc]; exact Or.inl rfl
    have h := ih (maxStep p q)
    rcases List.mem_cons.mp h with he | hm
    · rcases hmq with h1 | h1 <;> rw [he, h1]
      · exact List.mem_cons_self _ _
      · exact List.mem_cons_of_mem _ (List.mem_cons_self _ _)
    · exact List.mem_cons_of_mem _ (List.mem_cons_of_mem _ hm)

theorem maxByScoreFirst_mem {l : List (String × Nat)} {p : String × Nat}
    (h : maxByScoreFirst l = some p) : p ∈ l := by
  cases l with
  | nil => simp [maxByScoreFirst] at h
  | cons q qs =>
    have h' : qs.foldl maxStep q = p := Option.some.inj h
    rw [← h']
    exact foldl_maxStep_mem qs q

theorem category_scores_eq_filter (item : NewsItem) :
    category_scores item = (allScores item).filter (fun q => decide (0 < q.2)) := by
  unfold category_scores allScores
  suffices hgen : ∀ l : List (String × List String),
      l.filterMap (fun p =>
        if 0 < score (searchText item) p.2 then some (p.1, score (searchText item) p.2)
        else none) =
      (l.map (fun p => (p.1, score (searchText item) p.2))).filter
        (fun q => decide (0 < q.2)) from hgen keywords_map
  intro l
  induction l with
  | nil => rfl
  | cons p ps ih =>
    by_cases hs : 0 < score (searchText item) p.2 <;>
      simp [List.filterMap_cons, List.filter_cons, hs, ih]

/-- C2: an item whose declaration-ordered score list splits as
`l₁ ++ (c, m) :: l₂` with every score before `c` strictly below `m`
(so `c` is the first category reaching the maximum, also under ties) and
every score after it at most `m`, with `m` positive, is assigned to `c`. -/
theorem classifier_first_max_wins (item : NewsItem) (l₁ l₂ : List (String × Nat))
    (c : String) (m : Nat)
    (hsplit : allScores item = l₁ ++ (c, m) :: l₂) (hpos : 0 < m)
    (h₁ : ∀ q ∈ l₁, q.2 < m) (h₂ : ∀ q ∈ l₂, q.2 ≤ m) :
    assignCategory item = c := by
  have hcs : category_scores item =
      l₁.filter (fun q => decide (0 < q.2)) ++
        (c, m) :: l₂.filter (fun q => decide (0 < q.2)) := by
    rw [category_scores_eq_filter, hsplit, List.filter_append, List.filter_cons]
    simp [hpos]
  have hmax : maxByScoreFirst (category_scores item) = some (c, m) := by
    rw [hcs]
    exact maxByScoreFirst_split _ _ c m
      (fun q hq => h₁ q (List.mem_of_mem_filter hq))
      (fun q hq => h₂ q (List.mem_of_mem_filter hq))
  unfold assignCategory
  rw [hmax]

def itemC2 : NewsItem := ⟨"ai security", "", "", 0, ""⟩

theorem classifier_first_max_wins_witness :
    assignCategory itemC2 = "🤖 人工智慧與機器學習" :=
  classifier_first_max_wins itemC2 []
    [("🔒 資訊安全", 1), ("☁️ 雲端與基礎設施", 0), ("💻 軟體開發", 0),
     ("🚀 新創與投資", 0), ("📱 消費性科技", 0), ("🔬 科學研究", 0)]
    "🤖 人工智慧與機器學習" 1 (by decide) (by decide) (by decide) (by decide)

/-- C9: the per-category score is the number of the category's keywords
occurring as substrings of the lowercased concatenation of the item's
title and summary, and an item is assigned to the default bucket exactly
when every configured category scores zero on it. -/
theorem default_bucket_iff (item : NewsItem) :
    (∀ kws : List String,
      score (searchText item) kws =
        (kws.filter (fun k =>
          decide (k.data <:+: (lowerStr (item.title ++ " " ++ item.summary)).data))).length) ∧
    (assignCategory item = defaultCategory ↔
      ∀ p ∈ keywords_map, score (searchText item) p.2 = 0) := by
  constructor
  · intro kws
    rw [score, List.countP_eq_length_filter]
    simp only [searchText]
  · constructor
    · intro h p hp
      by_contra hs
      have hpos : 0 < score (searchText item) p.2 := Nat.pos_of_ne_zero hs
      have hmem : (p.1, score (searchText item) p.2) ∈ category_scores item := by
        unfold category_scores
        exact List.mem_filterMap.mpr ⟨p, hp, by simp [hpos]⟩
      obtain ⟨q, hq⟩ : ∃ q, maxByScoreFirst (category_scores item) = some q := by
        cases hcs : category_scores item with
        | nil => rw [hcs] at hmem; cases hmem
        | cons r rs => exact ⟨rs.foldl maxStep r, rfl⟩
      have hqmem : q ∈ category_scores item := maxByScoreFirst_mem hq
      have hkey : ∃ r ∈ keywords_map, q.1 = r.1 := by
        unfold category_scores at hqmem
        rcases List.mem_filterMap.mp hqmem with ⟨r, hr, hfr⟩
        refine ⟨r, hr, ?_⟩
        by_cases hsr : 0 < score (searchText item) r.2
        · simp only [if_pos hsr] at hfr
          rw [← Option.some.inj hfr]
        · simp only [if_neg hsr] at hfr
          cases hfr
      rcases hkey with ⟨r, hr, hq1⟩
      have hne : ∀ r' ∈ keywords_map, r'.1 ≠ defaultCategory := by decide
      unfold assignCategory at h
      rw [hq] at h
      exact hne r hr (hq1 ▸ h)
    · intro h
      have hcs : category_scores item = [] := by
        unfold category_scores
        apply List.filterMap_eq_nil_iff.mpr
        intro p hp
        rw [if_neg]
        rw [h p hp]
        exact lt_irrefl 0
      unfold assignCategory
      rw [hcs]
      rfl

def itemBlank : NewsItem := ⟨"", "", "", 0, ""⟩

/-- C7: every category present in the returned mapping holds at least one
item and at most 8 items. -/
theorem categorized_nonempty_capped (items : List NewsItem)
    (p : String × List NewsItem) (hp : p ∈ categorize_news items) :
    p.2 ≠ [] ∧ p.2.length ≤ 8 := by
  unfold categorize_news at hp
  rcases List.mem_filterMap.mp hp with ⟨q, _, hfq⟩
  by_cases hql : q.2 = []
  · rw [if_pos hql] at hfq
    cases hfq
  · rw [if_neg hql] at hfq
    rw [← Option.some.inj hfq]
    constructor
    · cases hcc : q.2 with
      | nil => exact absurd hcc hql
      | cons a as => simp [hcc]
    · exact List.length_take_le 8 q.2

theorem categorized_nonempty_capped_witness :
    (("📰 其他科技新聞", [itemBlank]) : String × List NewsItem).2 ≠ [] ∧
    (("📰 其他科技新聞", [itemBlank]) : String × List NewsItem).2.length ≤ 8 :=
  categorized_nonempty_capped [itemBlank] ("📰 其他科技新聞", [itemBlank]) (by decide)

theorem count_flatten_eq_sum (x : NewsItem) (L : List (List NewsItem)) :
    List.count x L.flatten = (L.map (fun l => List.count x l)).sum := by
  induction L with
  | nil => rfl
  | cons l ls ih =>
    rw [List.flatten_cons, List.count_append, List.map_cons, List.sum_cons, ih]

theorem count_filter_assign (x : NewsItem) (c : String) (l : List NewsItem) :
    List.count x (l.filter (fun it => decide (assignCategory it = c))) =
      if assignCategory x = c then List.count x l else 0 := by
  by_cases hc : assignCategory x = c
  · rw [if_pos hc]
    exact List.count_filter (by simp [hc])
  · rw [if_neg hc]
    apply List.count_eq_zero_of_not_mem
    intro hmem
    exact hc (by simpa using (List.mem_filter.mp hmem).2)

theorem sum_ite_single (a : String) (k : Nat) :
    ∀ cs : List String, cs.Nodup → a ∈ cs →
      (cs.map (fun c => if a = c then k else 0)).sum = k := by
  intro cs
  induction cs with
  | nil => exact fun _ h => absurd h (List.not_mem_nil a)
  | cons c cs ih =>
    intro hnd hmem
    rw [List.map_cons, List.sum_cons]
    rcases List.mem_cons.mp hmem with rfl | hmem'
    · rw [if_pos rfl]
      have hnotin : a ∉ cs := (List.nodup_cons.mp hnd).1
      have hzero : (cs.map (fun c => if a = c then k else 0)).sum = 0 := by
        apply List.sum_eq_zero
        intro y hy
        rcases List.mem_map.mp hy with ⟨c', hc', rfl⟩
        rw [if_neg]
        intro h
        exact hnotin (h ▸ hc')
      rw [hzero]
      exact Nat.add_zero k
    · have hne : a ≠ c := fun h => (List.nodup_cons.mp hnd).1 (h ▸ hmem')
      rw [if_neg hne, ih (List.nodup_cons.mp hnd).2 hmem', Nat.zero_add]

theorem assignCategory_mem_all (item : NewsItem) :
    assignCategory item ∈ all_categories := by
  unfold assignCategory
  cases hq : maxByScoreFirst (category_scores item) with
  | none => decide
  | some q =>
    have hqmem : q ∈ category_scores item := maxByScoreFirst_mem hq
    have hkey : ∃ r ∈ keywords_map, q.1 = r.1 := by
      unfold category_scores at hqmem
      rcases List.mem_filterMap.mp hqmem with ⟨r, hr, hfr⟩
      refine ⟨r, hr, ?_⟩
      by_cases hsr : 0 < score (searchText item) r.2
      · simp only [if_pos hsr] at hfr
        rw [← Option.some.inj hfr]
      · simp only [if_neg hsr] at hfr
        cases hfr
    rcases hkey with ⟨r, hr, hq1⟩
    show q.1 ∈ all_categories
    rw [hq1]
    have hallkeys : ∀ r' ∈ keywords_map, r'.1 ∈ all_categories := by decide
    exact hallkeys r hr

theorem flatten_categorize (items : List NewsItem)
    (h : ∀ c ∈ all_categories,
      (items.filter (fun it => decide (assignCategory it = c))).length ≤ 8) :
    ((categorize_news items).map Prod.snd).flatten =
      (all_categories.map
        (fun c => items.filter (fun it => decide (assignCategory it = c)))).flatten := by
  unfold categorize_news
  suffices hgen : ∀ cs : List String,
      (∀ c ∈ cs, (items.filter (fun it => decide (assignCategory it = c))).length ≤ 8) →
      (((cs.map (fun c =>
          (c, items.filter (fun it => decide (assignCategory it = c))))).filterMap
        (fun p => if p.2 = [] then none else some (p.1, p.2.take 8))).map Prod.snd).flatten =
      (cs.map (fun c => items.filter (fun it => decide (assignCategory it = c)))).flatten from
    hgen all_categories h
  intro cs
  induction cs with
  | nil => intro _; rfl
  | cons c cs ih =>
    intro hcs
    rw [List.map_cons, List.filterMap_cons, List.map_cons, List.flatten_cons]
    by_cases hce : items.filter (fun it => decide (assignCategory it = c)) = []
    · rw [if_pos hce, hce, List.nil_append]
      exact ih (fun c' hc' => hcs c' (List.mem_cons_of_mem c hc'))
    · rw [if_neg hce, List.map_cons, List.flatten_cons]
      rw [List.take_of_length_le (hcs c (List.mem_cons_self c cs))]
      rw [ih (fun c' hc' => hcs c' (List.mem_cons_of_mem c hc'))]

theorem perm_flatten_filters (items : List NewsItem) :
    (all_categories.map
      (fun c => items.filter (fun it => decide (assignCategory it = c)))).flatten.Perm
      items := by
  apply List.perm_iff_count.mpr
  intro x
  rw [count_flatten_eq_sum, List.map_map]
  have hpt : ((fun l => List.count x l) ∘
      fun c => items.filter (fun it => decide (assignCategory it = c))) =
      fun c => if assignCategory x = c then List.count x items else 0 := by
    funext c
    exact count_filter_assign x c items
  rw [hpt]
  exact sum_ite_single (assignCategory x) (List.count x items) all_categories
    (by decide) (assignCategory_mem_all x)

/-- C1 (amended): each item is assigned to exactly one category, and the
returned mapping's item-lists together are a permutation of the input
whenever no category accumulates more than 8 items — the per-category cap
(line 160) truncates any category beyond its first 8 items, so equality
with the input holds exactly up to that cap. -/
theorem categorize_partition_upto_cap (items : List NewsItem)
    (h : ∀ c ∈ all_categories,
      (items.filter (fun it => decide (assignCategory it = c))).length ≤ 8) :
    ((categorize_news items).map Prod.snd).flatten.Perm items := by
  rw [flatten_categorize items h]
  exact perm_flatten_filters items

theorem categorize_partition_upto_cap_witness :
    ((categorize_news [itemBlank]).map Prod.snd).flatten.Perm [itemBlank] :=
  categorize_partition_upto_cap [itemBlank] (by decide)

/-- C1 counterexample: nine identical keyword-free items all land in the
default bucket, whose list is capped at 8, so the returned mapping holds
only 8 of the 9 input items — the union of the item-sets is not the input
set. -/
theorem categorize_loses_beyond_cap :
    ¬ ((categorize_news (List.replicate 9 itemBlank)).map Prod.snd).flatten.Perm
        (List.replicate 9 itemBlank) := by
  intro h
  exact absurd h.length_eq (by decide)

/-- Substring containment between strings (Python `x in y`), stated on the
underlying character lists. -/
def Substr (x y : String) : Prop := x.data <:+: y.data

theorem substr_rfl (x : String) : Substr x x := ⟨[], [], by simp⟩

theorem substr_left {x s : String} (h : Substr x s) (t : String) : Substr x (s ++ t) := by
  rcases h with ⟨u, v, huv⟩
  exact ⟨u, v ++ t.data, by rw [String.data_append, ← huv]; simp⟩

theorem substr_right (s : String) {x t : String} (h : Substr x t) : Substr x (s ++ t) := by
  rcases h with ⟨u, v, huv⟩
  exact ⟨s.data ++ u, v, by rw [String.data_append, ← huv]; simp⟩

theorem substr_trans {x y z : String} (h1 : Substr x y) (h2 : Substr y z) : Substr x z :=
  List.IsInfix.trans h1 h2

theorem substr_title (i : Nat) (n : NewsItem) : Substr n.title (renderItem i n) := by
  unfold renderItem
  apply substr_left
  apply substr_left
  apply substr_left
  apply substr_left
  exact substr_right _ (substr_rfl n.title)

theorem substr_source (i : Nat) (n : NewsItem) : Substr n.source (renderItem i n) := by
  unfold renderItem
  apply substr_left
  apply substr_left
  apply substr_right
  apply substr_left
  exact substr_right _ (substr_rfl n.source)

theorem substr_link (i : Nat) (n : NewsItem) : Substr n.link (renderItem i n) := by
  unfold renderItem
  apply substr_left
  apply substr_right
  apply substr_left
  exact substr_right _ (substr_rfl n.link)

theorem substr_summaryPart (i : Nat) (n : NewsItem) :
    Substr ("- **摘要**: " ++ takeStr n.summary 150 ++ "...") (renderItem i n) := by
  unfold renderItem
  rw [show ("...\n\n" : String) = "..." ++ "\n\n" from rfl]
  apply substr_right
  exact ⟨[], ("\n\n" : String).data, by simp [String.data_append, List.append_assoc]⟩

theorem substr_renderItems {n : NewsItem} {l : List NewsItem} (i : Nat) (h : n ∈ l) :
    ∃ j, Substr (renderItem j n) (renderItems i l) := by
  induction l generalizing i with
  | nil => cases h
  | cons a as ih =>
    rcases List.mem_cons.mp h with rfl | h'
    · exact ⟨i, substr_left (substr_rfl _) _⟩
    · rcases ih (i + 1) h' with ⟨j, hj⟩
      exact ⟨j, substr_right _ hj⟩

theorem substr_renderCategories {c : String} {l : List NewsItem}
    {cn : List (String × List NewsItem)} (hp : (c, l) ∈ cn) (hne : l ≠ []) :
    Substr (renderCategory c l) (renderCategories cn) := by
  induction cn with
  | nil => cases hp
  | cons q qs ih =>
    obtain ⟨qc, ql⟩ := q
    rcases List.mem_cons.mp hp with heq | h'
    · injection heq with h1 h2
      subst h1
      subst h2
      rw [renderCategories, if_neg hne]
      exact substr_left (substr_rfl _) _
    · rw [renderCategories]
      exact substr_right _ (ih h')

theorem substr_sectionHeader (c : String) (l : List NewsItem) :
    Substr ("## " ++ c ++ "\n\n") (renderCategory c l) := by
  unfold renderCategory
  exact substr_left (substr_left (substr_rfl _) _) _

theorem substr_itemsBlock (c : String) (l : List NewsItem) :
    Substr (renderItems 1 (l.take 5)) (renderCategory c l) := by
  unfold renderCategory
  exact substr_left (substr_right _ (substr_rfl _)) _

/-- C8: when the generative call raises, the assembler returns the
deterministic fallback report, whose text contains a section heading for
every non-empty category of the input, renders at most the first 5 items
of each such category, and contains each rendered item's title, source
and link together with its summary truncated to 150 characters. -/
theorem fallback_report_complete (err dateStr timeStr : String)
    (cn : List (String × List NewsItem)) (c : String) (l : List NewsItem)
    (hp : (c, l) ∈ cn) (hne : l ≠ []) :
    generate_report (Except.error err) dateStr timeStr cn =
      generate_fallback_report dateStr timeStr cn ∧
    Substr ("## " ++ c ++ "\n\n") (generate_fallback_report dateStr timeStr cn) ∧
    (l.take 5).length ≤ 5 ∧
    ∀ n ∈ l.take 5,
      Substr n.title (generate_fallback_report dateStr timeStr cn) ∧
      Substr n.source (generate_fallback_report dateStr timeStr cn) ∧
      Substr n.link (generate_fallback_report dateStr timeStr cn) ∧
      Substr ("- **摘要**: " ++ takeStr n.summary 150 ++ "...")
        (generate_fallback_report dateStr timeStr cn) := by
  have hcat : Substr (renderCategory c l) (generate_fallback_report dateStr timeStr cn) := by
    unfold generate_fallback_report
    exact substr_right _ (substr_renderCategories hp hne)
  refine ⟨rfl, ?_, ?_, ?_⟩
  · exact substr_trans (substr_sectionHeader c l) hcat
  · exact List.length_take_le 5 l
  · intro n hn
    rcases substr_renderItems 1 hn with ⟨j, hj⟩
    have hitem : Substr (renderItem j n) (generate_fallback_report dateStr timeStr cn) :=
      substr_trans (substr_trans hj (substr_itemsBlock c l)) hcat
    exact ⟨substr_trans (substr_title j n) hitem,
           substr_trans (substr_source j n) hitem,
           substr_trans (substr_link j n) hitem,
           substr_trans (substr_summaryPart j n) hitem⟩

def itemC8 : NewsItem := ⟨"Title", "http://x", "Sum", 0, "Src"⟩

theorem fallback_report_complete_witness :
    generate_report (Except.error "boom") "D" "T" [("🤖 人工智慧與機器學習", [itemC8])] =
      generate_fallback_report "D" "T" [("🤖 人工智慧與機器學習", [itemC8])] ∧
    Substr ("## " ++ "🤖 人工智慧與機器學習" ++ "\n\n")
      (generate_fallback_report "D" "T" [("🤖 人工智慧與機器學習", [itemC8])]) ∧
    ([itemC8].take 5).length ≤ 5 ∧
    ∀ n ∈ [itemC8].take 5,
      Substr n.title (generate_fallback_report "D" "T" [("🤖 人工智慧與機器學習", [itemC8])]) ∧
      Substr n.source (generate_fallback_report "D" "T" [("🤖 人工智慧與機器學習", [itemC8])]) ∧
      Substr n.link (generate_fallback_report "D" "T" [("🤖 人工智慧與機器學習", [itemC8])]) ∧
      Substr ("- **摘要**: " ++ takeStr n.summary 150 ++ "...")
        (generate_fallback_report "D" "T" [("🤖 人工智慧與機器學習", [itemC8])]) :=
  fallback_report_complete "boom" "D" "T" [("🤖 人工智慧與機器學習", [itemC8])]
    "🤖 人工智慧與機器學習" [itemC8] (by simp) (by simp)

/-- An environment with the generative-API key set but every mail
credential and the recipient list missing. -/
def env0 : Env := ⟨some "k", none, none, none, none, none, none, none⟩

/-- C4 counterexample: with the recipient list, SMTP host and all mail
credentials missing, startup still succeeds — `TechNewsBot.__init__`
checks only the generative-API key, so the claimed fail-fast on missing
mail configuration does not happen. -/
theorem config_counterexample :
    env0.toEmail = none ∧ env0.smtpServer = none ∧ env0.fromEmail = none ∧
    techNewsBotInit env0 = Except.ok env0 :=
  ⟨rfl, rfl, rfl, rfl⟩

/-- C4 (amended): startup fails fast, with a descriptive error and before
any network activity, exactly when the generative-API key is missing;
missing mail settings do not abort startup — they surface only inside
`send_email_with_link`, whose exception handler turns them into a `False`
return after fetching has already run — and a missing note-hosting token
merely skips note creation. -/
theorem config_fail_fast_amended (env : Env) :
    ((∃ msg, techNewsBotInit env = Except.error msg) ↔ env.geminiApiKey = none) ∧
    (env.toEmail = none → send_email_with_link env = false) ∧
    (env.smtpServer = none → send_email_with_link env = false) ∧
    (env.emailUsername = none → send_email_with_link env = false) ∧
    (env.emailPassword = none → send_email_with_link env = false) ∧
    (∀ resp, env.hackmdToken = none → create_hackmd_note env resp = none) := by
  refine ⟨⟨?_, ?_⟩, ?_, ?_, ?_, ?_, ?_⟩
  · rintro ⟨msg, hmsg⟩
    cases hkey : env.geminiApiKey with
    | none => rfl
    | some k =>
      unfold techNewsBotInit at hmsg
      rw [hkey] at hmsg
      cases hmsg
  · intro hkey
    refine ⟨"請設置 GEMINI_API_KEY 環境變數", ?_⟩
    unfold techNewsBotInit
    rw [hkey]
  · intro h
    simp [send_email_with_link, h]
  · intro h
    simp [send_email_with_link, h]
  · intro h
    simp [send_email_with_link, h]
  · intro h
    simp [send_email_with_link, h]
  · intro resp h
    simp [create_hackmd_note, h]

theorem config_fail_fast_amended_witness :
    send_email_with_link env0 = false ∧ create_hackmd_note env0 (some "url") = none :=
  ⟨(config_fail_fast_amended env0).2.1 rfl,
   (config_fail_fast_amended env0).2.2.2.2.2 (some "url") rfl⟩
